import Mathlib

/-!
Verification development for the merlin server utilities
(file src/merlin/server/server_util.py).

The Python code is shallowly embedded: file contents are lists of
characters, Python dictionaries are insertion-ordered association lists,
exceptions are modelled with Option (none = the operation raises), and
the value None is modelled with Option as well.  The SHA-256 function of
hashlib is reimplemented executably over byte lists.
-/

/-- Character lists stand for Python strings inside the embedding. -/
abbrev Chars := List Char

/-! ## Python string primitives -/

/-- Whitespace test matching Python str.isspace on the ASCII range
(the configuration files at issue are ASCII). -/
def pyIsSpace (c : Char) : Bool :=
  c == ' ' || c == '\t' || c == '\n' || c == '\r' || c == '\x0B' || c == '\x0C'

/-- Python s.split(sep) for a one-character separator sep. -/
def pySplitChar (sep : Char) : Chars → List Chars
  | [] => [[]]
  | c :: rest =>
    if c = sep then [] :: pySplitChar sep rest
    else
      match pySplitChar sep rest with
      | [] => [[c]]
      | l :: ls => (c :: l) :: ls

/-- Joining with a one-character separator; inverse of pySplitChar. -/
def pyJoinChar (sep : Char) : List Chars → Chars
  | [] => []
  | [l] => l
  | l :: l2 :: ls => l ++ sep :: pyJoinChar sep (l2 :: ls)

/-- Python s.split(maxsplit=1) with default whitespace separator:
returns [] when s is all whitespace, [tok] when nothing follows the
first token, and [tok, rest] otherwise, where rest keeps its trailing
whitespace verbatim. -/
def pySplit1 (s : Chars) : List Chars :=
  let s1 := s.dropWhile pyIsSpace
  if s1 = [] then []
  else
    let tok := s1.takeWhile (fun c => !pyIsSpace c)
    let rest := (s1.dropWhile (fun c => !pyIsSpace c)).dropWhile pyIsSpace
    if rest = [] then [tok] else [tok, rest]

/-- Numeric value of a decimal digit list, none when empty or when a
character is not a digit; helper for the model of Python int(). -/
def digitsVal : Chars → Option Nat
  | [] => none
  | ds => go ds 0
where
  go : Chars → Nat → Option Nat
    | [], acc => some acc
    | c :: rest, acc =>
      if c.isDigit then go rest (acc * 10 + (c.toNat - 48)) else none

/-- Model of Python int(str): surrounding whitespace is stripped, an
optional sign is allowed, then a nonempty run of decimal digits; none
models ValueError.  (Underscore grouping is not modelled; the inputs at
issue never use it.) -/
def pyInt (s : Chars) : Option Int :=
  let t := ((s.dropWhile pyIsSpace).reverse.dropWhile pyIsSpace).reverse
  match t with
  | '+' :: ds => (digitsVal ds).map Int.ofNat
  | '-' :: ds => (digitsVal ds).map (fun n => -(n : Int))
  | ds => (digitsVal ds).map Int.ofNat

/-! ## Python dictionaries

Insertion-ordered association lists: assignment to a present key updates
it in place, assignment to an absent key appends. -/

/-- Dictionary lookup (first matching key; keys are unique in any state
reachable from Python code). -/
def dictGet {κ α : Type} [DecidableEq κ] (k : κ) : List (κ × α) → Option α
  | [] => none
  | (k', v) :: rest => if k' = k then some v else dictGet k rest

/-- Python "k in d". -/
def dictMem {κ α : Type} [DecidableEq κ] (k : κ) (d : List (κ × α)) : Bool :=
  (dictGet k d).isSome

/-- Python "d[k] = v": in-place update of a present key, append of an
absent one. -/
def dictSet {κ α : Type} [DecidableEq κ] (k : κ) (v : α) : List (κ × α) → List (κ × α)
  | [] => [(k, v)]
  | (k', v') :: rest => if k' = k then (k, v) :: rest else (k', v') :: dictSet k v rest

/-- In-place update of the value at a present key by a function. -/
def dictUpdate {κ α : Type} [DecidableEq κ] (k : κ) (f : α → α) : List (κ × α) → List (κ × α)
  | [] => []
  | (k', v') :: rest => if k' = k then (k', f v') :: rest else (k', v') :: dictUpdate k f rest

/-! ## SHA-256 (model of hashlib.sha256(...).hexdigest())

A direct executable implementation over byte lists; 32-bit words are
Nat values kept below 2^32 with explicit reduction. -/

/-- Reduction to a 32-bit word. -/
def w32 (n : Nat) : Nat := n % 4294967296

/-- Bitwise combination of two 32-bit words, fuel-based so that the
kernel evaluates it by structural recursion. -/
def bitop (f : Bool → Bool → Bool) : Nat → Nat → Nat → Nat
  | 0, _, _ => 0
  | n + 1, a, b =>
    (if f (a % 2 == 1) (b % 2 == 1) then 1 else 0) + 2 * bitop f n (a / 2) (b / 2)

def xor32 (a b : Nat) : Nat := bitop (fun x y => x != y) 32 a b

def and32 (a b : Nat) : Nat := bitop (fun x y => x && y) 32 a b

def not32 (a : Nat) : Nat := 4294967295 - a

/-- Right rotation of a 32-bit word. -/
def rotr32 (n a : Nat) : Nat := w32 (a / 2 ^ n + a * 2 ^ (32 - n))

/-- Right shift of a 32-bit word. -/
def shr32 (n a : Nat) : Nat := a / 2 ^ n

def sigmaSmall0 (x : Nat) : Nat := xor32 (rotr32 7 x) (xor32 (rotr32 18 x) (shr32 3 x))

def sigmaSmall1 (x : Nat) : Nat := xor32 (rotr32 17 x) (xor32 (rotr32 19 x) (shr32 10 x))

def sigmaBig0 (x : Nat) : Nat := xor32 (rotr32 2 x) (xor32 (rotr32 13 x) (rotr32 22 x))

def sigmaBig1 (x : Nat) : Nat := xor32 (rotr32 6 x) (xor32 (rotr32 11 x) (rotr32 25 x))

def chFn (e f g : Nat) : Nat := xor32 (and32 e f) (and32 (not32 e) g)

def majFn (a b c : Nat) : Nat := xor32 (and32 a b) (xor32 (and32 a c) (and32 b c))

/-- Round constants of FIPS 180-4, in decimal. -/
def sha256K : List Nat :=
  [1116352408, 1899447441, 3049323471, 3921009573, 961987163, 1508970993,
   2453635748, 2870763221, 3624381080, 310598401, 607225278, 1426881987,
   1925078388, 2162078206, 2614888103, 3248222580, 3835390401, 4022224774,
   264347078, 604807628, 770255983, 1249150122, 1555081692, 1996064986,
   2554220882, 2821834349, 2952996808, 3210313671, 3336571891, 3584528711,
   113926993, 338241895, 666307205, 773529912, 1294757372, 1396182291,
   1695183700, 1986661051, 2177026350, 2456956037, 2730485921, 2820302411,
   3259730800, 3345764771, 3516065817, 3600352804, 4094571909, 275423344,
   430227734, 506948616, 659060556, 883997877, 958139571, 1322822218,
   1537002063, 1747873779, 1955562222, 2024104815, 2227730452, 2361852424,
   2428436474, 2756734187, 3204031479, 3329325298]

/-- Big-endian bytes of the 64-bit message length. -/
def lenBytes64 (n : Nat) : List Nat :=
  [n / 2 ^ 56 % 256, n / 2 ^ 48 % 256, n / 2 ^ 40 % 256, n / 2 ^ 32 % 256,
   n / 2 ^ 24 % 256, n / 2 ^ 16 % 256, n / 2 ^ 8 % 256, n % 256]

/-- SHA-256 padding: a 0x80 byte, zeros to 56 mod 64, then the bit length. -/
def sha256Pad (msg : List Nat) : List Nat :=
  msg ++ 0x80 :: List.replicate ((119 - msg.length % 64) % 64) 0 ++ lenBytes64 (msg.length * 8)

/-- Big-endian 32-bit words from bytes (length assumed a multiple of 4). -/
def bytesToWords : List Nat → List Nat
  | b0 :: b1 :: b2 :: b3 :: rest =>
    (((b0 * 256 + b1) * 256 + b2) * 256 + b3) :: bytesToWords rest
  | _ => []

/-- Word list cut into 16-word blocks (length assumed a multiple of 16). -/
def blocks16 : List Nat → List (List Nat)
  | w0 :: w1 :: w2 :: w3 :: w4 :: w5 :: w6 :: w7 :: w8 :: w9 :: w10 :: w11 :: w12 :: w13 :: w14 :: w15 :: rest =>
    [w0, w1, w2, w3, w4, w5, w6, w7, w8, w9, w10, w11, w12, w13, w14, w15] :: blocks16 rest
  | _ => []

/-- Message-schedule extension: acc holds the words produced so far in
reverse order; n more words are appended. -/
def extendW : Nat → List Nat → List Nat
  | 0, acc => acc
  | n + 1, acc =>
    extendW n
      (w32 (sigmaSmall1 (acc.getD 1 0) + acc.getD 6 0 + sigmaSmall0 (acc.getD 14 0) + acc.getD 15 0) :: acc)

/-- Hash state: the eight working words. -/
structure Sha256St where
  a : Nat
  b : Nat
  c : Nat
  d : Nat
  e : Nat
  f : Nat
  g : Nat
  h : Nat
deriving DecidableEq, Repr

def sha256Init : Sha256St :=
  ⟨1779033703, 3144134277, 1013904242, 2773480762,
   1359893119, 2600822924, 528734635, 1541459225⟩

/-- One compression round. -/
def sha256Round (st : Sha256St) (k w : Nat) : Sha256St :=
  let t1 := w32 (st.h + sigmaBig1 st.e + chFn st.e st.f st.g + k + w)
  let t2 := w32 (sigmaBig0 st.a + majFn st.a st.b st.c)
  ⟨w32 (t1 + t2), st.a, st.b, st.c, w32 (st.d + t1), st.e, st.f, st.g⟩

def sha256Rounds : List Nat → List Nat → Sha256St → Sha256St
  | k :: ks, w :: ws, st => sha256Rounds ks ws (sha256Round st k w)
  | _, _, st => st

/-- Compression of one 16-word block into the running hash. -/
def sha256Block (hv : Sha256St) (blk : List Nat) : Sha256St :=
  let w := (extendW 48 blk.reverse).reverse
  let st := sha256Rounds sha256K w hv
  ⟨w32 (hv.a + st.a), w32 (hv.b + st.b), w32 (hv.c + st.c), w32 (hv.d + st.d),
   w32 (hv.e + st.e), w32 (hv.f + st.f), w32 (hv.g + st.g), w32 (hv.h + st.h)⟩

def sha256Blocks : List (List Nat) → Sha256St → Sha256St
  | [], hv => hv
  | blk :: rest, hv => sha256Blocks rest (sha256Block hv blk)

/-- The eight final hash words of a byte message. -/
def sha256Words (msg : List Nat) : List Nat :=
  let hv := sha256Blocks (blocks16 (bytesToWords (sha256Pad msg))) sha256Init
  [hv.a, hv.b, hv.c, hv.d, hv.e, hv.f, hv.g, hv.h]

/-- Lower-case hex digit. -/
def hexDigit (n : Nat) : Char :=
  if n < 10 then Char.ofNat (48 + n) else Char.ofNat (87 + n)

/-- Eight hex digits of a 32-bit word, most significant first. -/
def hexWord (w : Nat) : Chars :=
  [hexDigit (w / 2 ^ 28 % 16), hexDigit (w / 2 ^ 24 % 16), hexDigit (w / 2 ^ 20 % 16),
   hexDigit (w / 2 ^ 16 % 16), hexDigit (w / 2 ^ 12 % 16), hexDigit (w / 2 ^ 8 % 16),
   hexDigit (w / 2 ^ 4 % 16), hexDigit (w % 16)]

/-- Model of hashlib.sha256(bytes(s, "utf-8")).hexdigest() for ASCII
strings, whose UTF-8 bytes are their code points. -/
def sha256hex (s : String) : String :=
  String.mk ((sha256Words (s.data.map Char.toNat)).flatMap hexWord)

/-! ## RedisConfig (class RedisConfig of server_util.py)

The field entry_order is a mutable class attribute of the Python class:
every instance aliases one shared list, which parse() appends to without
resetting.  The embedding therefore threads the shared list explicitly:
parse receives the current contents of the shared list and returns its
new contents inside the produced state.  entries and comments are rebound
per call of parse, hence per instance. -/

structure RedisConfig where
  entry_order : List Chars
  entries : List (Chars × Chars)
  comments : List (Chars × Chars)
  trailing_comments : Chars
  changed : Bool
deriving DecidableEq, Repr

namespace RedisConfig

/-- Loop body of RedisConfig.parse over the lines of the file; returns
none when the Python code raises IndexError.  Arguments after the line
list: entry_order so far, entries, comments, accumulated comment text. -/
def parseLines : List Chars → List Chars → List (Chars × Chars) → List (Chars × Chars) → Chars →
    Option (List Chars × List (Chars × Chars) × List (Chars × Chars) × Chars)
  | [], order, entries, comments, acc => some (order, entries, comments, acc.dropLast)
  | line :: rest, order, entries, comments, acc =>
    match line with
    | [] => parseLines rest order entries comments (acc ++ ['\n'])
    | c :: _ =>
      if c = '#' then parseLines rest order entries comments (acc ++ line ++ ['\n'])
      else
        match pySplit1 line with
        | [k, v] =>
          if dictMem k entries then
            match pySplit1 v with
            | [s0, s1] =>
              let k2 := k ++ ' ' :: s0
              parseLines rest (order ++ [k2]) (dictSet k2 s1 entries) (dictSet k2 acc comments) []
            | _ => none
          else
            parseLines rest (order ++ [k]) (dictSet k v entries) (dictSet k acc comments) []
        | _ => none

/-- RedisConfig.parse: resets entries and comments, appends to the
(shared) entry_order, and sets trailing_comments. -/
def parse (st : RedisConfig) (content : Chars) : Option RedisConfig :=
  (parseLines (pySplitChar '\n' content) st.entry_order [] [] []).map
    fun r => { st with entry_order := r.1, entries := r.2.1, comments := r.2.2.1,
                       trailing_comments := r.2.2.2 }

/-- RedisConfig.__init__ on a file with the given contents, with the
class-level entry_order list currently holding sharedOrder (it is [] in
a fresh Python process). -/
def init (content : Chars) (sharedOrder : List Chars) : Option RedisConfig :=
  parse { entry_order := sharedOrder, entries := [], comments := [],
          trailing_comments := [], changed := false } content

/-- Output text of the loop of RedisConfig.write over entry_order; none
models a KeyError on a missing dictionary entry. -/
def writeSeg : List Chars → List (Chars × Chars) → List (Chars × Chars) → Option Chars
  | [], _, _ => some []
  | k :: ks, entries, comments =>
    match dictGet k comments, dictGet k entries with
    | some cm, some v => (writeSeg ks entries comments).map fun rest => cm ++ k ++ ' ' :: v ++ '\n' :: rest
    | _, _ => none

/-- RedisConfig.write: each entry preceded by its comment block and
followed by one newline, then the trailing comments. -/
def write (st : RedisConfig) : Option Chars :=
  (writeSeg st.entry_order st.entries st.comments).map (· ++ st.trailing_comments)

/-- RedisConfig.set_config_value. -/
def set_config_value (st : RedisConfig) (key value : String) : Bool × RedisConfig :=
  if !dictMem key.data st.entries then (false, st)
  else (true, { st with entries := dictSet key.data value.data st.entries, changed := true })

/-- RedisConfig.get_config_value; none models the Python return of None. -/
def get_config_value (st : RedisConfig) (key : String) : Option String :=
  (dictGet key.data st.entries).map String.mk

/-- RedisConfig.get_ip_address. -/
def get_ip_address (st : RedisConfig) : Option String :=
  get_config_value st "bind"

/-- RedisConfig.get_port. -/
def get_port (st : RedisConfig) : Option String :=
  get_config_value st "port"

end RedisConfig

/-! ## Validators -/

/-- Loop of valid_ipv4 over the dotted parts; none models the ValueError
raised by int() on a non-numeric part.  The test mirrors the source
literally: int(i) < 0 and int(i) > 255. -/
def ipv4Loop : List Chars → Option Bool
  | [] => some true
  | s :: rest =>
    (pyInt s).bind fun n => if n < 0 ∧ n > 255 then some false else ipv4Loop rest

/-- valid_ipv4 of server_util.py. -/
def valid_ipv4 (ip : String) : Option Bool :=
  if ip.data = [] then some false
  else
    let arr := pySplitChar '.' ip.data
    if arr.length ≠ 4 then some false
    else ipv4Loop arr

/-- valid_port of server_util.py. -/
def valid_port (port : Int) : Bool :=
  port > 0 && port < 65536

namespace RedisConfig

/-- RedisConfig.set_ip_address; the outer Option models exception
propagation out of valid_ipv4, the inner pair is (return value, state). -/
def set_ip_address (st : RedisConfig) (ipaddress : Option String) : Option (Bool × RedisConfig) :=
  match ipaddress with
  | none => some (false, st)
  | some ip =>
    (valid_ipv4 ip).map fun ok =>
      if ok then
        let r := set_config_value st "bind" ip
        if !r.1 then (false, r.2) else (true, r.2)
      else (false, st)

/-- RedisConfig.set_port.  The Python argument is the int object itself;
the stored dictionary value is modelled by its decimal rendering, which
is what Python prints for it when the file is written. -/
def set_port (st : RedisConfig) (port : Option Int) : Bool × RedisConfig :=
  match port with
  | none => (false, st)
  | some p =>
    if valid_port p then
      let r := set_config_value st "port" (toString p)
      if !r.1 then (false, r.2) else (true, r.2)
    else (false, st)

end RedisConfig

/-! ## RedisUsers (class RedisUsers of server_util.py) -/

namespace RedisUsers

/-- Nested class RedisUsers.User: the four instance fields.  The same
shape models the plain dictionaries appearing in the users file, since
both carry exactly these named fields. -/
structure User where
  status : String
  hash_password : String
  keys : String
  commands : String
deriving DecidableEq, Repr

/-- User.__init__: status, keys and commands are stored; the password
hash is the class-level default sha256("password") unless a password is
given, in which case set_password stores its sha256. -/
def User.init (status keys commands : String) (password : Option String) : User :=
  { status := status, keys := keys, commands := commands,
    hash_password := match password with
      | none => sha256hex "password"
      | some p => sha256hex p }

/-- User.parse_dict: copies the four required fields of the dictionary. -/
def User.parse_dict (d : User) : User :=
  { status := d.status, keys := d.keys, commands := d.commands,
    hash_password := d.hash_password }

/-- User.get_user_dict: first assigns status = "on" on the user object,
then returns the dictionary of its fields; the result is (mutated user,
returned dictionary). -/
def User.get_user_dict (u : User) : User × User :=
  let u2 := { u with status := "on" }
  (u2, { status := u2.status, hash_password := u2.hash_password,
         keys := u2.keys, commands := u2.commands })

/-- User.set_password: stores the sha256 of the new password. -/
def User.setPasswordHash (u : User) (password : String) : User :=
  { u with hash_password := sha256hex password }

end RedisUsers

/-- RedisUsers state: the users dictionary, username to User. -/
structure RedisUsersSt where
  users : List (String × RedisUsers.User)
deriving DecidableEq, Repr

namespace RedisUsers

/-- RedisUsers.parse on a users file whose deserialized content is the
given username-to-dictionary mapping: each dictionary is replaced by a
fresh User populated via parse_dict. -/
def parse (yamlData : List (String × User)) : RedisUsersSt :=
  ⟨yamlData.map fun p => (p.1, User.parse_dict p.2)⟩

/-- RedisUsers.write: builds the dictionary serialized to the file by
calling get_user_dict on every user, which also mutates each stored
user; the result is (state after the call, serialized mapping). -/
def write (st : RedisUsersSt) : RedisUsersSt × List (String × User) :=
  (⟨st.users.map fun p => (p.1, (User.get_user_dict p.2).1)⟩,
   st.users.map fun p => (p.1, (User.get_user_dict p.2).2))

/-- RedisUsers.add_user. -/
def add_user (st : RedisUsersSt) (user status keys commands : String)
    (password : Option String) : Bool × RedisUsersSt :=
  if dictMem user st.users then (false, st)
  else (true, ⟨dictSet user (User.init status keys commands password) st.users⟩)

/-- RedisUsers.set_password: the function falls off the end after a
successful update, so Python returns None; the Option Bool return models
that (none = None, some false = the explicit return False). -/
def set_password (st : RedisUsersSt) (user password : String) : Option Bool × RedisUsersSt :=
  if !dictMem user st.users then (some false, st)
  else (none, ⟨dictUpdate user (fun u => User.setPasswordHash u password) st.users⟩)

/-- RedisUsers.remove_user. -/
def remove_user (st : RedisUsersSt) (user : String) : Bool × RedisUsersSt :=
  if dictMem user st.users then
    (true, ⟨st.users.filter fun p => p.1 ≠ user⟩)
  else (false, st)

/-- Commands issued to the redis client by apply_to_redis. -/
inductive RedisCmd where
  | setuser (username : String) (hashed_passwords : List String) (enabled : Bool)
      (keys : String) (commands : List String)
  | deluser (username : String)
deriving DecidableEq, Repr

/-- First loop of apply_to_redis: an acl_setuser call for every declared
user absent from the server's current list. -/
def setuserCmds : List (String × User) → List String → List RedisCmd
  | [], _ => []
  | (name, d) :: rest, current =>
    (if current.contains name then []
     else [RedisCmd.setuser name ["+" ++ d.hash_password] (d.status == "on")
             d.keys ["+" ++ d.commands]]) ++ setuserCmds rest current

/-- Second loop of apply_to_redis: an acl_deluser call for every server
user absent from the declared mapping. -/
def deluserCmds (current : List String) (users : List (String × User)) : List RedisCmd :=
  (current.filter fun u => !dictMem u users).map RedisCmd.deluser

/-- RedisUsers.apply_to_redis, as the sequence of ACL commands it sends
to a server whose acl_users() call returned current_users. -/
def apply_to_redis (st : RedisUsersSt) (current_users : List String) : List RedisCmd :=
  setuserCmds st.users current_users ++ deluserCmds current_users st.users

end RedisUsers

/-! ## Derived operations and wellformedness -/

/-- Parsing a file into a fresh store (fresh Python process, so the
class-level entry_order list is empty) and writing immediately. -/
def parseThenWrite (content : String) : Option String :=
  ((RedisConfig.init content.data []).bind RedisConfig.write).map String.mk

/-- First whitespace-separated token of an entry line. -/
def entryKey (l : Chars) : Chars := l.takeWhile fun c => !pyIsSpace c

/-- Text after the separating space of an entry line. -/
def entryVal (l : Chars) : Chars := (l.dropWhile fun c => !pyIsSpace c).tail

/-- A line in normal form: a nonempty whitespace-free key not starting
with '#', exactly one space, then a value starting with a non-space
character. -/
def goodEntryLine (l : Chars) : Bool :=
  match l with
  | [] => false
  | c :: _ =>
    !pyIsSpace c && c != '#' &&
    (match l.dropWhile (fun c => !pyIsSpace c) with
     | ' ' :: c2 :: _ => !pyIsSpace c2
     | _ => false)

/-- A comment line (empty or starting with '#') or a normal entry line. -/
def wfLine (l : Chars) : Bool :=
  (match l with
   | [] => true
   | c :: _ => c == '#') || goodEntryLine l

/-- Keys of the entry lines of a file, in order. -/
def entryKeys : List Chars → List Chars
  | [] => []
  | l :: ls =>
    match l with
    | [] => entryKeys ls
    | c :: _ => if c = '#' then entryKeys ls else entryKey l :: entryKeys ls

/-- Normal-form configuration text: ends with a newline, every line is a
comment line or a normal entry line, and the entry keys are pairwise
distinct. -/
def wfConfigText (s : String) : Prop :=
  (∀ l ∈ pySplitChar '\n' s.data, wfLine l = true) ∧
  (pySplitChar '\n' s.data).getLast? = some [] ∧
  (entryKeys (pySplitChar '\n' s.data)).Nodup

/-- Username a reconciliation command addresses. -/
def cmdUser : RedisUsers.RedisCmd → String
  | RedisUsers.RedisCmd.setuser n _ _ _ _ => n
  | RedisUsers.RedisCmd.deluser n => n

/-! ## Dictionary and splitter lemmas -/

theorem dictGet_dictSet_self {κ α : Type} [DecidableEq κ] (k : κ) (v : α) (d : List (κ × α)) :
    dictGet k (dictSet k v d) = some v := by
  induction d with
  | nil => simp [dictGet, dictSet]
  | cons p rest ih =>
    by_cases h : p.1 = k
    · simp [dictSet, dictGet, h]
    · simp [dictSet, dictGet, h, ih]

theorem dictSet_fresh {κ α : Type} [DecidableEq κ] (k : κ) (v : α) (d : List (κ × α))
    (h : dictMem k d = false) : dictSet k v d = d ++ [(k, v)] := by
  induction d with
  | nil => rfl
  | cons p rest ih =>
    simp only [dictMem, dictGet] at h
    by_cases hk : p.1 = k
    · rw [if_pos hk] at h
      simp at h
    · rw [if_neg hk] at h
      simp only [dictSet, if_neg hk, List.cons_append]
      rw [ih h]

theorem dictMem_append {κ α : Type} [DecidableEq κ] (k : κ) (d1 d2 : List (κ × α)) :
    dictMem k (d1 ++ d2) = (dictMem k d1 || dictMem k d2) := by
  induction d1 with
  | nil => simp [dictMem, dictGet]
  | cons p rest ih =>
    by_cases hk : p.1 = k
    · simp [dictMem, dictGet, hk]
    · simpa [dictMem, dictGet, hk] using ih

theorem dictGet_append_left {κ α : Type} [DecidableEq κ] (k : κ) (d1 d2 : List (κ × α))
    (h : dictMem k d1 = true) : dictGet k (d1 ++ d2) = dictGet k d1 := by
  induction d1 with
  | nil => simp [dictMem, dictGet] at h
  | cons p rest ih =>
    by_cases hk : p.1 = k
    · simp [dictGet, hk]
    · simp only [dictMem, dictGet, if_neg hk] at h
      simpa [dictGet, hk] using ih h

theorem dictGet_append_right {κ α : Type} [DecidableEq κ] (k : κ) (d1 d2 : List (κ × α))
    (h : dictMem k d1 = false) : dictGet k (d1 ++ d2) = dictGet k d2 := by
  induction d1 with
  | nil => simp
  | cons p rest ih =>
    by_cases hk : p.1 = k
    · simp [dictMem, dictGet, hk] at h
    · simp only [dictMem, dictGet, if_neg hk] at h
      simpa [dictGet, hk] using ih h

theorem dictMem_singleton_self {κ α : Type} [DecidableEq κ] (k : κ) (v : α) :
    dictMem k [(k, v)] = true := by simp [dictMem, dictGet]

theorem dictGet_singleton_self {κ α : Type} [DecidableEq κ] (k : κ) (v : α) :
    dictGet k [(k, v)] = some v := by simp [dictGet]

theorem pySplitChar_ne_nil (sep : Char) (l : Chars) : pySplitChar sep l ≠ [] := by
  induction l with
  | nil => simp [pySplitChar]
  | cons c rest ih =>
    simp only [pySplitChar]
    split
    · simp
    · cases h : pySplitChar sep rest with
      | nil => simp
      | cons a as => simp

theorem pyJoin_pySplit (sep : Char) (l : Chars) : pyJoinChar sep (pySplitChar sep l) = l := by
  induction l with
  | nil => rfl
  | cons c rest ih =>
    simp only [pySplitChar]
    by_cases h : c = sep
    · subst h
      simp only [if_pos rfl]
      cases hs : pySplitChar c rest with
      | nil => exact absurd hs (pySplitChar_ne_nil _ _)
      | cons a as =>
        rw [hs] at ih
        simp [pyJoinChar, ih]
    · simp only [if_neg h]
      cases hs : pySplitChar sep rest with
      | nil => exact absurd hs (pySplitChar_ne_nil _ _)
      | cons a as =>
        rw [hs] at ih
        cases as with
        | nil => simpa [pyJoinChar] using ih
        | cons b bs => simpa [pyJoinChar] using ih

theorem goodEntryLine_eq (l : Chars) (h : goodEntryLine l = true) :
    l = entryKey l ++ ' ' :: entryVal l := by
  cases l with
  | nil => simp [goodEntryLine] at h
  | cons c cs =>
    simp only [goodEntryLine] at h
    obtain ⟨-, hmatch⟩ := Bool.and_eq_true_iff.mp h
    split at hmatch
    · next c2 tail heq =>
      have hl := List.takeWhile_append_dropWhile (p := fun c => !pyIsSpace c) (l := c :: cs)
      rw [heq] at hl
      simp only [entryKey, entryVal, heq, List.tail_cons]
      exact hl.symm
    · simp at hmatch

theorem pySplit1_good (l : Chars) (h : goodEntryLine l = true) :
    pySplit1 l = [entryKey l, entryVal l] := by
  cases l with
  | nil => simp [goodEntryLine] at h
  | cons c cs =>
    simp only [goodEntryLine] at h
    obtain ⟨hhead, hmatch⟩ := Bool.and_eq_true_iff.mp h
    obtain ⟨hcsp, -⟩ := Bool.and_eq_true_iff.mp hhead
    have hcsp' : pyIsSpace c = false := by
      revert hcsp
      cases pyIsSpace c <;> simp
    split at hmatch
    · next c2 tail heq =>
      have hc2 : pyIsSpace c2 = false := by
        revert hmatch
        cases pyIsSpace c2 <;> simp
      have hsp : pyIsSpace ' ' = true := by decide
      simp only [pySplit1, List.dropWhile_cons, hcsp', Bool.false_eq_true, if_false,
        reduceCtorEq, entryKey, entryVal, heq, List.tail_cons, hsp, if_true, hc2]
    · simp at hmatch

theorem wfLine_not_comment (c : Char) (cs : Chars) (hw : wfLine (c :: cs) = true)
    (hc : ¬c = '#') : goodEntryLine (c :: cs) = true := by
  simp only [wfLine, Bool.or_eq_true] at hw
  rcases hw with hw | hw
  · exact absurd (by simpa using hw) hc
  · exact hw

/-- Main invariant of RedisConfig.parse on normal-form line lists: the
loop succeeds, appends exactly the entry keys to entry_order, preserves
the dictionaries it extends, and the written text of the new segment
reproduces the joined input lines. -/
theorem parseLines_roundtrip (lines : List Chars) :
    ∀ (order : List Chars) (entries comments : List (Chars × Chars)) (acc : Chars),
      (∀ l ∈ lines, wfLine l = true) →
      lines.getLast? = some [] →
      (entryKeys lines).Nodup →
      (∀ k ∈ entryKeys lines, dictMem k entries = false) →
      (∀ k ∈ entryKeys lines, dictMem k comments = false) →
      ∃ entries2 comments2 trailing,
        RedisConfig.parseLines lines order entries comments acc =
          some (order ++ entryKeys lines, entries2, comments2, trailing) ∧
        (∀ k, dictMem k entries = true → dictGet k entries2 = dictGet k entries) ∧
        (∀ k, dictMem k comments = true → dictGet k comments2 = dictGet k comments) ∧
        (RedisConfig.writeSeg (entryKeys lines) entries2 comments2).map (· ++ trailing) =
          some (acc ++ pyJoinChar '\n' lines) := by
  induction lines with
  | nil =>
    intro order entries comments acc _ hlast _ _ _
    simp at hlast
  | cons line rest ih =>
    intro order entries comments acc hwf hlast hnd hfe hfc
    cases line with
    | nil =>
      cases rest with
      | nil =>
        refine ⟨entries, comments, acc, ?_, fun _ _ => rfl, fun _ _ => rfl, ?_⟩
        · simp [RedisConfig.parseLines, entryKeys]
        · simp [RedisConfig.writeSeg, entryKeys, pyJoinChar]
      | cons r rs =>
        have hrest := ih order entries comments (acc ++ ['\n'])
          (fun l hl => hwf l (List.mem_cons_of_mem _ hl))
          (by simpa using hlast)
          (by simpa [entryKeys] using hnd)
          (fun k hk => hfe k (by simpa [entryKeys] using hk))
          (fun k hk => hfc k (by simpa [entryKeys] using hk))
        obtain ⟨e2, c2, tr, hp, hpe, hpc, hw⟩ := hrest
        refine ⟨e2, c2, tr, ?_, hpe, hpc, ?_⟩
        · simpa [RedisConfig.parseLines, entryKeys] using hp
        · rw [show entryKeys ([] :: r :: rs) = entryKeys (r :: rs) from by simp [entryKeys]]
          rw [hw]
          simp [pyJoinChar]
    | cons c cs =>
      have hrest_ne : rest ≠ [] := by
        intro hr
        subst hr
        simp at hlast
      obtain ⟨r, rs, hrr⟩ : ∃ r rs, rest = r :: rs := by
        cases rest with
        | nil => exact absurd rfl hrest_ne
        | cons r rs => exact ⟨r, rs, rfl⟩
      subst hrr
      by_cases hc : c = '#'
      · subst hc
        have hrest := ih order entries comments (acc ++ ('#' :: cs) ++ ['\n'])
          (fun l hl => hwf l (List.mem_cons_of_mem _ hl))
          (by simpa using hlast)
          (by simpa [entryKeys] using hnd)
          (fun k hk => hfe k (by simpa [entryKeys] using hk))
          (fun k hk => hfc k (by simpa [entryKeys] using hk))
        obtain ⟨e2, c2, tr, hp, hpe, hpc, hw⟩ := hrest
        refine ⟨e2, c2, tr, ?_, hpe, hpc, ?_⟩
        · simpa [RedisConfig.parseLines, entryKeys] using hp
        · rw [show entryKeys (('#' :: cs) :: r :: rs) = entryKeys (r :: rs) from by
            simp [entryKeys]]
          rw [hw]
          simp [pyJoinChar]
      · have hgood : goodEntryLine (c :: cs) = true :=
          wfLine_not_comment c cs (hwf _ (List.mem_cons_self _ _)) hc
        set k := entryKey (c :: cs) with hk
        set v := entryVal (c :: cs) with hv
        have hkeys : entryKeys ((c :: cs) :: r :: rs) = k :: entryKeys (r :: rs) := by
          simp [entryKeys, hc]
        have hkfe : dictMem k entries = false := hfe k (by rw [hkeys]; exact List.mem_cons_self _ _)
        have hkfc : dictMem k comments = false := hfc k (by rw [hkeys]; exact List.mem_cons_self _ _)
        have hknotin : k ∉ entryKeys (r :: rs) := by
          have := hnd
          rw [hkeys] at this
          exact (List.nodup_cons.mp this).1
        have hsete : dictSet k v entries = entries ++ [(k, v)] := dictSet_fresh _ _ _ hkfe
        have hsetc : dictSet k acc comments = comments ++ [(k, acc)] := dictSet_fresh _ _ _ hkfc
        have hrest := ih (order ++ [k]) (entries ++ [(k, v)]) (comments ++ [(k, acc)]) []
          (fun l hl => hwf l (List.mem_cons_of_mem _ hl))
          (by simpa using hlast)
          (by rw [hkeys] at hnd; exact (List.nodup_cons.mp hnd).2)
          (fun k' hk' => by
            rw [dictMem_append]
            have h1 : dictMem k' entries = false :=
              hfe k' (by rw [hkeys]; exact List.mem_cons_of_mem _ hk')
            have h2 : dictMem k' [(k, v)] = false := by
              simp only [dictMem, dictGet]
              rw [if_neg]
              · rfl
              · intro he
                exact hknotin (he ▸ hk')
            rw [h1, h2]
            rfl)
          (fun k' hk' => by
            rw [dictMem_append]
            have h1 : dictMem k' comments = false :=
              hfc k' (by rw [hkeys]; exact List.mem_cons_of_mem _ hk')
            have h2 : dictMem k' [(k, acc)] = false := by
              simp only [dictMem, dictGet]
              rw [if_neg]
              · rfl
              · intro he
                exact hknotin (he ▸ hk')
            rw [h1, h2]
            rfl)
        obtain ⟨e2, c2, tr, hp, hpe, hpc, hw⟩ := hrest
        have hkmeme : dictMem k (entries ++ [(k, v)]) = true := by
          rw [dictMem_append, dictMem_singleton_self]
          simp
        have hkmemc : dictMem k (comments ++ [(k, acc)]) = true := by
          rw [dictMem_append, dictMem_singleton_self]
          simp
        have hgete2 : dictGet k e2 = some v := by
          rw [hpe k hkmeme, dictGet_append_right _ _ _ hkfe, dictGet_singleton_self]
        have hgetc2 : dictGet k c2 = some acc := by
          rw [hpc k hkmemc, dictGet_append_right _ _ _ hkfc, dictGet_singleton_self]
        refine ⟨e2, c2, tr, ?_, ?_, ?_, ?_⟩
        · rw [hkeys]
          have hstep : RedisConfig.parseLines ((c :: cs) :: r :: rs) order entries comments acc =
              RedisConfig.parseLines (r :: rs) (order ++ [k]) (dictSet k v entries)
                (dictSet k acc comments) [] := by
            simp only [RedisConfig.parseLines, if_neg hc, pySplit1_good _ hgood, hkfe,
              Bool.false_eq_true, if_false]
          rw [hstep, hsete, hsetc, hp]
          simp
        · intro k0 hk0
          have : dictMem k0 (entries ++ [(k, v)]) = true := by
            rw [dictMem_append, hk0]
            rfl
          rw [hpe k0 this, dictGet_append_left _ _ _ hk0]
        · intro k0 hk0
          have : dictMem k0 (comments ++ [(k, acc)]) = true := by
            rw [dictMem_append, hk0]
            rfl
          rw [hpc k0 this, dictGet_append_left _ _ _ hk0]
        · rw [hkeys]
          obtain ⟨w, hwsome, hwtr⟩ : ∃ w,
              RedisConfig.writeSeg (entryKeys (r :: rs)) e2 c2 = some w ∧
              w ++ tr = pyJoinChar '\n' (r :: rs) := by
            cases hws : RedisConfig.writeSeg (entryKeys (r :: rs)) e2 c2 with
            | none => rw [hws] at hw; simp at hw
            | some w =>
              rw [hws] at hw
              exact ⟨w, rfl, by simpa using hw⟩
          simp only [RedisConfig.writeSeg, hgetc2, hgete2, hwsome, Option.map_some']
          have hline : (c :: cs) = k ++ ' ' :: v := goodEntryLine_eq _ hgood
          rw [show pyJoinChar '\n' ((c :: cs) :: r :: rs) =
              (c :: cs) ++ '\n' :: pyJoinChar '\n' (r :: rs) from rfl]
          rw [hline, ← hwtr]
          simp

/-! ## Claim theorems -/

/-- Claim C1, counterexample: the round trip is not byte-identical for
every file text; a file with no final newline gains one. -/
theorem roundtrip_not_byte_identical :
    parseThenWrite "a 1" = some "a 1\n" ∧ ("a 1\n" : String) ≠ "a 1" := by
  refine ⟨by decide, by decide⟩

/-- Claim C1, amended: for every configuration file text that ends in a
newline, in which every line is a comment line or consists of a
whitespace-free key not starting with a hash, a single separating space
and a value starting with a non-space character, and whose entry keys
are pairwise distinct, parsing into a fresh store and immediately
writing produces output byte-identical to the input. -/
theorem parse_write_roundtrip_wellformed (s : String) (h : wfConfigText s) :
    parseThenWrite s = some s := by
  obtain ⟨hwf, hlast, hnd⟩ := h
  obtain ⟨e2, c2, tr, hp, -, -, hw⟩ :=
    parseLines_roundtrip (pySplitChar '\n' s.data) [] [] [] [] hwf hlast hnd
      (fun _ _ => rfl) (fun _ _ => rfl)
  have hinit : RedisConfig.init s.data [] =
      some ⟨entryKeys (pySplitChar '\n' s.data), e2, c2, tr, false⟩ := by
    unfold RedisConfig.init RedisConfig.parse
    rw [hp]
    rfl
  have hwrite : RedisConfig.write ⟨entryKeys (pySplitChar '\n' s.data), e2, c2, tr, false⟩ =
      some s.data := by
    unfold RedisConfig.write
    simpa [pyJoin_pySplit] using hw
  unfold parseThenWrite
  rw [hinit]
  show (RedisConfig.write
    ⟨entryKeys (pySplitChar '\n' s.data), e2, c2, tr, false⟩).map String.mk = some s
  rw [hwrite]
  rfl

/-- Witness for the amended claim C1 at a concrete file with comments,
blank lines, several entries and a trailing comment block. -/
theorem parse_write_roundtrip_wellformed_witness :
    wfConfigText "# comment\n\nbind 127.0.0.1\nport 6379\nsave 900 1\n# tail\n" ∧
    parseThenWrite "# comment\n\nbind 127.0.0.1\nport 6379\nsave 900 1\n# tail\n" =
      some "# comment\n\nbind 127.0.0.1\nport 6379\nsave 900 1\n# tail\n" :=
  ⟨by constructor
      · decide
      · constructor
        · decide
        · decide,
   parse_write_roundtrip_wellformed _ (by
     constructor
     · decide
     · constructor
       · decide
       · decide)⟩

/-- Claim C2: constructing a second RedisConfig appends to the same
class-level entry_order list, so the second store's entry order contains
the first file's entry as well, not only its own. -/
theorem entry_order_shared_across_instances :
    ((RedisConfig.init "a 1\n".data []).bind fun st1 =>
      (RedisConfig.init "b 2\n".data st1.entry_order).map fun st2 => st2.entry_order) =
      some ["a".data, "b".data] ∧
    (["a".data, "b".data] : List Chars) ≠ ["b".data] := by
  refine ⟨by decide, by decide⟩

/-- Claim C3: set_ip_address "999.999.1.1" returns True and overwrites
the bind entry, because the octet test of valid_ipv4 uses a conjunction
that can never hold; the claim's required behavior (reject and leave
bind unchanged) does not occur. -/
theorem set_ip_address_accepts_invalid_octets :
    ((RedisConfig.init "bind 127.0.0.1\n".data []).bind fun st =>
      (RedisConfig.set_ip_address st (some "999.999.1.1")).map fun r =>
        (r.1, RedisConfig.get_config_value r.2 "bind")) =
      some (true, some "999.999.1.1") ∧
    valid_ipv4 "999.999.1.1" = some true := by
  refine ⟨by decide, by decide⟩

/-- Claim C4: writing a registry loaded with a user of status "off"
serializes that user with status "on", because get_user_dict overwrites
the status field; the other three fields are preserved. -/
theorem users_write_forces_status_on :
    (RedisUsers.write (RedisUsers.parse [("u", ⟨"off", "h1", "*", "@all"⟩)])).2 =
      [("u", ⟨"on", "h1", "*", "@all"⟩)] ∧
    (RedisUsers.write (RedisUsers.parse [("u", ⟨"off", "h1", "*", "@all"⟩)])).2.map
      (fun p => (p.1, p.2.hash_password, p.2.keys, p.2.commands)) =
      [("u", "h1", "*", "@all")] ∧
    ("on" : String) ≠ "off" := by
  refine ⟨rfl, rfl, by decide⟩

/-- Claim C5: with declared users a and b and live server users b and c
(all distinct), reconciliation issues exactly one create command for a,
carrying the plus-prefixed hash, the status flag, the key pattern and
the plus-prefixed command pattern, and exactly one delete command for c;
no issued command names b. -/
theorem apply_to_redis_set_difference (a b c : String) (ua ub : RedisUsers.User)
    (hab : a ≠ b) (hbc : b ≠ c) (hac : a ≠ c) :
    RedisUsers.apply_to_redis ⟨[(a, ua), (b, ub)]⟩ [b, c] =
      [RedisUsers.RedisCmd.setuser a ["+" ++ ua.hash_password] (ua.status == "on")
         ua.keys ["+" ++ ua.commands],
       RedisUsers.RedisCmd.deluser c] ∧
    (∀ cmd ∈ RedisUsers.apply_to_redis ⟨[(a, ua), (b, ub)]⟩ [b, c], cmdUser cmd ≠ b) := by
  have h1 : RedisUsers.apply_to_redis ⟨[(a, ua), (b, ub)]⟩ [b, c] =
      [RedisUsers.RedisCmd.setuser a ["+" ++ ua.hash_password] (ua.status == "on")
         ua.keys ["+" ++ ua.commands],
       RedisUsers.RedisCmd.deluser c] := by
    simp [RedisUsers.apply_to_redis, RedisUsers.setuserCmds, RedisUsers.deluserCmds,
      dictMem, dictGet, List.contains_cons, hab, hbc, hac, Ne.symm hab, Ne.symm hbc,
      Ne.symm hac, List.filter]
  refine ⟨h1, ?_⟩
  intro cmd hm
  rw [h1] at hm
  simp only [List.mem_cons, List.not_mem_nil, or_false] at hm
  rcases hm with rfl | rfl
  · simpa [cmdUser] using hab
  · simpa [cmdUser] using Ne.symm hbc

/-- Witness for claim C5 at concrete usernames and user records. -/
theorem apply_to_redis_set_difference_witness :
    ("a" : String) ≠ "b" ∧
    RedisUsers.apply_to_redis
      ⟨[("a", ⟨"on", "h1", "*", "@all"⟩), ("b", ⟨"off", "h2", "*", "@all"⟩)]⟩ ["b", "c"] =
      [RedisUsers.RedisCmd.setuser "a" ["+h1"] true "*" ["+@all"],
       RedisUsers.RedisCmd.deluser "c"] :=
  ⟨by decide,
   by
    have := (apply_to_redis_set_difference "a" "b" "c" ⟨"on", "h1", "*", "@all"⟩
      ⟨"off", "h2", "*", "@all"⟩ (by decide) (by decide) (by decide)).1
    simpa using this⟩

/-- Claim C6: parsing the two lines save 900 1 and save 300 10 yields
distinct keys save and save 300 with values 900 1 and 10, and the file
round-trips byte-for-byte. -/
theorem parse_composite_key_roundtrip :
    ((RedisConfig.init "save 900 1\nsave 300 10\n".data []).map fun st =>
      (st.entry_order, dictGet "save".data st.entries, dictGet "save 300".data st.entries)) =
      some (["save".data, "save 300".data], some "900 1".data, some "10".data) ∧
    parseThenWrite "save 900 1\nsave 300 10\n" = some "save 900 1\nsave 300 10\n" := by
  refine ⟨by decide, by decide⟩

/-- Claim C7: set_password on an absent user returns False and leaves
the registry unchanged, but on a present user it updates the stored hash
and then returns None rather than True, because the function has no
return statement on the success path. -/
theorem set_password_returns_none_on_success :
    RedisUsers.set_password ⟨[("a", RedisUsers.User.init "on" "*" "@all" none)]⟩ "a" "pw" =
      (none, ⟨[("a", { RedisUsers.User.init "on" "*" "@all" none with
                        hash_password := sha256hex "pw" })]⟩) ∧
    RedisUsers.set_password ⟨[("a", RedisUsers.User.init "on" "*" "@all" none)]⟩ "b" "pw" =
      (some false, ⟨[("a", RedisUsers.User.init "on" "*" "@all" none)]⟩) ∧
    (none : Option Bool) ≠ some true :=
  ⟨rfl, rfl, by decide⟩

/-- Claim C8: with the key port present, set_port returns true exactly
for integers strictly between 0 and 65536, otherwise returns false with
the store unchanged; set_port 70000 fails, set_port 6379 succeeds and
get_port then returns the string 6379. -/
theorem set_port_validates_range (st : RedisConfig) (p : Int)
    (h : dictMem "port".data st.entries = true) :
    ((RedisConfig.set_port st (some p)).1 = true ↔ 0 < p ∧ p < 65536) ∧
    (¬(0 < p ∧ p < 65536) → RedisConfig.set_port st (some p) = (false, st)) ∧
    (RedisConfig.set_port st (some 70000)).1 = false ∧
    (RedisConfig.set_port st (some 6379)).1 = true ∧
    RedisConfig.get_port (RedisConfig.set_port st (some 6379)).2 = some "6379" := by
  refine ⟨?_, ?_, ?_, ?_, ?_⟩
  · constructor
    · intro hr
      by_contra hc
      have : valid_port p = false := by
        simp [valid_port]
        omega
      simp [RedisConfig.set_port, this] at hr
    · intro hc
      have : valid_port p = true := by
        simp [valid_port]
        omega
      simp [RedisConfig.set_port, this, RedisConfig.set_config_value, h]
  · intro hc
    have : valid_port p = false := by
      simp [valid_port]
      omega
    simp [RedisConfig.set_port, this]
  · simp [RedisConfig.set_port, valid_port]
  · simp [RedisConfig.set_port, valid_port, RedisConfig.set_config_value, h]
  · simp [RedisConfig.set_port, valid_port, RedisConfig.set_config_value, h,
      RedisConfig.get_port, RedisConfig.get_config_value, dictGet_dictSet_self]
    rfl

/-- Witness for claim C8 at a concrete store whose schema has port. -/
theorem set_port_validates_range_witness :
    dictMem "port".data
      (RedisConfig.mk ["port".data] [("port".data, "10".data)] [("port".data, [])] []
        false).entries = true ∧
    ((RedisConfig.set_port
        (RedisConfig.mk ["port".data] [("port".data, "10".data)] [("port".data, [])] [] false)
        (some 6379)).1 = true ↔ 0 < (6379 : Int) ∧ (6379 : Int) < 65536) ∧
    RedisConfig.get_port (RedisConfig.set_port
      (RedisConfig.mk ["port".data] [("port".data, "10".data)] [("port".data, [])] [] false)
      (some 6379)).2 = some "6379" :=
  ⟨by decide,
   (set_port_validates_range
     (RedisConfig.mk ["port".data] [("port".data, "10".data)] [("port".data, [])] [] false)
     6379 (by decide)).1,
   (set_port_validates_range
     (RedisConfig.mk ["port".data] [("port".data, "10".data)] [("port".data, [])] [] false)
     6379 (by decide)).2.2.2.2⟩

/-- Claim C9: set_config_value on a key absent from the loaded schema
returns false and leaves the store, including its entry order and its
changed flag, entirely unchanged. -/
theorem set_config_value_absent_key_noop (st : RedisConfig) (key value : String)
    (h : dictMem key.data st.entries = false) :
    RedisConfig.set_config_value st key value = (false, st) := by
  simp [RedisConfig.set_config_value, h]

/-- Witness for claim C9 at a concrete store and key. -/
theorem set_config_value_absent_key_noop_witness :
    dictMem ("extra".data) (RedisConfig.mk [] [] [] [] false).entries = false ∧
    RedisConfig.set_config_value (RedisConfig.mk [] [] [] [] false) "extra" "x" =
      (false, RedisConfig.mk [] [] [] [] false) :=
  ⟨by decide, set_config_value_absent_key_noop _ _ _ (by decide)⟩

set_option maxRecDepth 40000 in
/-- Claim C10: a user constructed without a password carries the SHA-256
hex digest of the literal string password, which is the publicly known
constant below, and two users added without passwords serialize with
this identical hash. -/
theorem default_user_shares_known_password_hash :
    (RedisUsers.User.init "on" "*" "@all" none).hash_password = sha256hex "password" ∧
    sha256hex "password" =
      "5e884898da28047151d0e56f8dc6292773603d0d6aabbdd62a11ef721d1542d8" ∧
    ((RedisUsers.write (RedisUsers.add_user
        (RedisUsers.add_user ⟨[]⟩ "u1" "on" "*" "@all" none).2
        "u2" "on" "*" "@all" none).2).2.map fun p => p.2.hash_password) =
      ["5e884898da28047151d0e56f8dc6292773603d0d6aabbdd62a11ef721d1542d8",
       "5e884898da28047151d0e56f8dc6292773603d0d6aabbdd62a11ef721d1542d8"] := by
  have h : sha256hex "password" =
      "5e884898da28047151d0e56f8dc6292773603d0d6aabbdd62a11ef721d1542d8" := by rfl
  refine ⟨rfl, h, ?_⟩
  show [sha256hex "password", sha256hex "password"] = _
  rw [h]
